import Mathlib

/-!
Verification of the chess-tui rules engine (board.rs, pieces/bishop.rs,
pieces/knight.rs) against its natural-language specification.

The Rust source is shallowly embedded: the 8x8 grid is a list of lists of
optional pieces, `i8`/`i32` values are `Int` (all arithmetic here stays far
from the overflow boundaries the source could hit), strings are lists of
characters, and every operation is a computable Lean function translated
from the corresponding Rust function.  Helper functions that live in parts
of the repository not present under src/ (utils.rs and the pawn, rook,
queen, king move generators) are modelled from the specification text and
carry a doc comment starting with `Modelled from the spec:`.
-/

namespace ChessTui

/-- Piece colors, from pieces (PieceColor). -/
inductive PieceColor where
  | White
  | Black
deriving DecidableEq, Repr

/-- Kinds of chess pieces, from pieces (PieceType). -/
inductive PieceType where
  | Pawn
  | Knight
  | Bishop
  | Rook
  | Queen
  | King
deriving DecidableEq, Repr

/-- Modelled from the spec: the opposite color (PieceColor::opposite). -/
def PieceColor.opposite : PieceColor → PieceColor
  | .White => .Black
  | .Black => .White

/-- A board cell: an optional (kind, color) pair (board.rs `Piece`). -/
abbrev Piece := Option (PieceType × PieceColor)

/-- The 8x8 grid of optional pieces (board.rs `GameBoard`).  Rust's fixed
`[[Piece; 8]; 8]` array is embedded as a list of rows. -/
abbrev GameBoard := List (List Piece)

/-- Modelled from the spec: the sentinel component of the "undefined"
coordinate (constants.rs `UNDEFINED_POSITION`, outside the valid range). -/
def UNDEFINED_POSITION : Int := -1

/-- Board coordinates (board.rs `Coords`): a (col, row) pair of `i8`. -/
structure Coords where
  col : Int
  row : Int
deriving DecidableEq, Repr

/-- board.rs `Coords::new` (its panic guard for components below -2 or
above 9 is never reached by the embedded operations). -/
def Coords.new (row col : Int) : Coords :=
  { col := col, row := row }

/-- board.rs `Coords::is_valid`: both components in [0,7]. -/
def Coords.is_valid (c : Coords) : Bool :=
  decide (0 ≤ c.row ∧ c.row < 8) && decide (0 ≤ c.col ∧ c.col < 8)

/-- board.rs `Coords::default` (the undefined position). -/
def Coords.dflt : Coords :=
  { col := UNDEFINED_POSITION, row := UNDEFINED_POSITION }

/-- Decimal digit to character, as Rust's `char::from_digit` on 0-9. -/
def digitChar : Nat → Char
  | 0 => '0'
  | 1 => '1'
  | 2 => '2'
  | 3 => '3'
  | 4 => '4'
  | 5 => '5'
  | 6 => '6'
  | 7 => '7'
  | 8 => '8'
  | 9 => '9'
  | _ => '0'

/-- Rust's `char::from_digit(n, 10).unwrap_or_default()`: the digit
character for n < 10, `char::default()` (NUL) otherwise. -/
def fromDigitOrDflt (n : Nat) : Char :=
  if n < 10 then digitChar n else Char.ofNat 0

/-- Whether a character is an ASCII decimal digit
(Rust `char::is_ascii_digit`). -/
def isDigitCh (c : Char) : Bool :=
  decide (48 ≤ c.toNat ∧ c.toNat ≤ 57)

/-- Rust's `char::to_digit(10).unwrap_or(0)` on a character. -/
def charDigit (c : Char) : Nat :=
  if isDigitCh c then c.toNat - 48 else 0

/-- Decimal digits of a natural number (helper for integer formatting),
with explicit fuel for structural recursion. -/
def natToCharsAux : Nat → Nat → List Char → List Char
  | 0, _, acc => acc
  | fuel + 1, n, acc =>
    if n < 10 then digitChar n :: acc
    else natToCharsAux fuel (n / 10) (digitChar (n % 10) :: acc)

/-- Decimal representation of a natural number, as Rust's Display. -/
def natToChars (n : Nat) : List Char :=
  natToCharsAux (n + 1) n []

/-- Decimal representation of an integer, as Rust's Display for i8/i32. -/
def intToChars (i : Int) : List Char :=
  if i < 0 then '-' :: natToChars (-i).toNat else natToChars i.toNat

/-- board.rs `Coords::to_hist`: `format!("{}{}", row, col)`. -/
def Coords.to_hist (c : Coords) : List Char :=
  intToChars c.row ++ intToChars c.col

/-- Parse a character as Rust's `str::parse::<i8>` on a one-character
string of a digit (the only shape the source feeds it); non-digit input,
on which the source would panic, is totalised to 0. -/
def charToInt (c : Char) : Int :=
  if isDigitCh c then ((c.toNat : Int) - 48) else 0

/-- board.rs `Coords::from_hist`: parse a two-character history fragment
back into coordinates. -/
def Coords.from_hist (s : List Char) : Coords :=
  Coords.new (charToInt (s.getD 0 '0')) (charToInt (s.getD 1 '0'))

/-- Modelled from the spec: utils.rs `chtoi`, digit value of an optional
character (the source unwraps; `none`/non-digit is totalised to 0). -/
def chtoi (c : Option Char) : Int :=
  match c with
  | some ch => charToInt ch
  | none => 0

/-- Modelled from the spec: utils.rs `col_to_letter`, the file letter
(a-h) of a column index. -/
def col_to_letter (col : Int) : List Char :=
  if col = 0 then ['a']
  else if col = 1 then ['b']
  else if col = 2 then ['c']
  else if col = 3 then ['d']
  else if col = 4 then ['e']
  else if col = 5 then ['f']
  else if col = 6 then ['g']
  else ['h']

/-- A move-history record (board.rs `HistRec`): the kind that moved and
the compact 4-digit from/to string, embedded as a character list. -/
abbrev HistRec := PieceType × List Char

/-- Read the grid at a coordinate (board.rs `Board::get`); out-of-range
reads, which the source never performs on indexes it computes from valid
coordinates, are totalised to an empty cell. -/
def bget (board : GameBoard) (c : Coords) : Piece :=
  (board.getD c.row.toNat []).getD c.col.toNat none

/-- Write the grid at a coordinate (board.rs `Board::set`). -/
def bset (board : GameBoard) (c : Coords) (p : Piece) : GameBoard :=
  board.set c.row.toNat ((board.getD c.row.toNat []).set c.col.toNat p)

/-- Modelled from the spec: utils.rs `get_piece_type`. -/
def get_piece_type (board : GameBoard) (c : Coords) : Option PieceType :=
  (bget board c).map Prod.fst

/-- Modelled from the spec: utils.rs `get_piece_color`. -/
def get_piece_color (board : GameBoard) (c : Coords) : Option PieceColor :=
  (bget board c).map Prod.snd

/-- Modelled from the spec: utils.rs `is_cell_color_ally` - the cell holds
a piece of the given color. -/
def is_cell_color_ally (board : GameBoard) (c : Coords) (color : PieceColor) : Bool :=
  get_piece_color board c == some color

/-- Modelled from the spec: utils.rs `is_piece_opposite_king` - the cell
value is the king of the opposite color (a sliding piece "sees through"
the enemy king square when computing threatened squares). -/
def is_piece_opposite_king (p : Piece) (color : PieceColor) : Bool :=
  p == some (PieceType.King, color.opposite)

/-- Modelled from the spec: utils.rs `is_valid` on a coordinate. -/
def is_valid (c : Coords) : Bool :=
  c.is_valid

/-- Modelled from the spec: utils.rs `cleaned_positions` keeps the valid
coordinates of a raw move list. -/
def cleaned_positions (l : List Coords) : List Coords :=
  l.filter (fun c => is_valid c)

/-- All 64 squares of the grid in row-major order (the scanning order of
the source's nested `for i in 0..8 { for j in 0..8 }` loops). -/
def allSquares : List Coords :=
  (List.range 8).flatMap (fun i => (List.range 8).map (fun j => Coords.new i j))

/-- Modelled from the spec: utils.rs `get_king_coordinates` - king
location found by scanning the grid (undefined coordinate if absent). -/
def get_king_coordinates (board : GameBoard) (color : PieceColor) : Coords :=
  match allSquares.find? (fun c => bget board c == some (PieceType.King, color)) with
  | some c => c
  | none => Coords.dflt

/-- Modelled from the spec: utils.rs `did_piece_already_move` - scan the
history for a record of the given kind whose origin matches the given
square. -/
def did_piece_already_move (history : List HistRec) (piece : PieceType × Coords) : Bool :=
  history.any (fun r => r.1 == piece.1 && r.2.take 2 == piece.2.to_hist)

/-- One sliding ray of bishop.rs `Bishop::piece_move` (each of the four
diagonal loops `for i in 1..8` is this scan with its direction): stop at
the board edge; an empty cell is included and the scan continues; an ally
cell stops the scan (included only when `allow` is set); an enemy cell is
included, and the scan continues only when `allow` is set and the enemy
piece is the opposite king. -/
def rayScan (board : GameBoard) (color : PieceColor) (allow : Bool)
    (base : Coords) (dr dc : Int) : Nat → Int → List Coords
  | 0, _ => []
  | fuel + 1, i =>
    let nc := Coords.new (base.row + dr * i) (base.col + dc * i)
    if ¬ is_valid nc then []
    else if (get_piece_color board nc).isNone then
      nc :: rayScan board color allow base dr dc fuel (i + 1)
    else if is_cell_color_ally board nc color then
      if ¬ allow then [] else [nc]
    else
      nc ::
        (if ¬ allow || ¬ is_piece_opposite_king (bget board nc) color then []
         else rayScan board color allow base dr dc fuel (i + 1))

/-- bishop.rs `Bishop::piece_move`: the four diagonal rays, in the
source's order (top-left, bottom-right, bottom-left, top-right), passed
through `cleaned_positions`. -/
def bishopPieceMove (c : Coords) (color : PieceColor) (board : GameBoard)
    (allow : Bool) (_history : List HistRec) : List Coords :=
  cleaned_positions
    (rayScan board color allow c (-1) (-1) 7 1 ++
     rayScan board color allow c 1 1 7 1 ++
     rayScan board color allow c 1 (-1) 7 1 ++
     rayScan board color allow c (-1) 1 7 1)

/-- knight.rs `Knight::piece_move`: the eight fixed L-shaped offsets, each
validity- and ally-filtered, in the source's order. -/
def knightPieceMove (c : Coords) (color : PieceColor) (board : GameBoard)
    (allow : Bool) (_history : List HistRec) : List Coords :=
  let offsets : List (Int × Int) :=
    [(-2, -1), (-2, 1), (-1, -2), (-1, 2), (1, -2), (1, 2), (2, -1), (2, 1)]
  cleaned_positions
    (offsets.foldl
      (fun acc d =>
        let nc := Coords.new (c.row + d.1) (c.col + d.2)
        if ¬ is_valid nc then acc
        else if is_cell_color_ally board nc color && ¬ allow then acc
        else acc ++ [nc])
      [])

/-- Modelled from the spec: rook.rs `Rook::piece_move` - "analogous to
Bishop on four orthogonal rays". -/
def rookPieceMove (c : Coords) (color : PieceColor) (board : GameBoard)
    (allow : Bool) (_history : List HistRec) : List Coords :=
  cleaned_positions
    (rayScan board color allow c (-1) 0 7 1 ++
     rayScan board color allow c 1 0 7 1 ++
     rayScan board color allow c 0 (-1) 7 1 ++
     rayScan board color allow c 0 1 7 1)

/-- Modelled from the spec: queen.rs `Queen::piece_move` - "union of
Bishop and Rook rays". -/
def queenPieceMove (c : Coords) (color : PieceColor) (board : GameBoard)
    (allow : Bool) (history : List HistRec) : List Coords :=
  bishopPieceMove c color board allow history ++
    rookPieceMove c color board allow history

/-- Modelled from the spec: pawn.rs `Pawn::piece_move` - forward one
square (two from the starting rank with both intervening squares empty),
diagonal capture only onto a square occupied by an enemy or a valid
en-passant target (the immediately preceding history entry is an opponent
pawn double-step landing adjacent).  With `allow` set the pawn's
threatened squares are its two forward diagonals. -/
def pawnPieceMove (c : Coords) (color : PieceColor) (board : GameBoard)
    (allow : Bool) (history : List HistRec) : List Coords :=
  let dir : Int := if color = PieceColor.White then -1 else 1
  if allow then
    cleaned_positions
      [Coords.new (c.row + dir) (c.col - 1), Coords.new (c.row + dir) (c.col + 1)]
  else
    let startRow : Int := if color = PieceColor.White then 6 else 1
    let one := Coords.new (c.row + dir) c.col
    let two := Coords.new (c.row + 2 * dir) c.col
    let forward :=
      (if is_valid one && (bget board one).isNone then [one] else []) ++
        (if c.row = startRow && (bget board one).isNone && (bget board two).isNone
         then [two] else [])
    let epTarget : Option Coords :=
      match history.getLast? with
      | some (PieceType.Pawn, s) =>
        let pfrom := Coords.from_hist (s.take 2)
        let pto := Coords.from_hist ((s.drop 2).take 2)
        if (pto.row - pfrom.row).natAbs = 2 ∧ pto.row = c.row ∧
            (pto.col - c.col).natAbs = 1 then
          some (Coords.new (c.row + dir) pto.col)
        else none
      | _ => none
    let diag (d : Coords) : List Coords :=
      if ¬ is_valid d then []
      else if (get_piece_color board d) == some color.opposite then [d]
      else if epTarget == some d then [d]
      else []
    forward ++ diag (Coords.new (c.row + dir) (c.col - 1)) ++
      diag (Coords.new (c.row + dir) (c.col + 1))

/-- Modelled from the spec: king.rs `King::piece_move` - the eight
adjacent squares, ally/enemy filtered, with no self-check filtering at
this layer (castling candidates are handled in the authorized-positions
query, not here, so that threatened-square computation stays
well-founded). -/
def kingPieceMove (c : Coords) (color : PieceColor) (board : GameBoard)
    (allow : Bool) (_history : List HistRec) : List Coords :=
  let offsets : List (Int × Int) :=
    [(-1, -1), (-1, 0), (-1, 1), (0, -1), (0, 1), (1, -1), (1, 0), (1, 1)]
  cleaned_positions
    (offsets.foldl
      (fun acc d =>
        let nc := Coords.new (c.row + d.1) (c.col + d.2)
        if ¬ is_valid nc then acc
        else if is_cell_color_ally board nc color && ¬ allow then acc
        else acc ++ [nc])
      [])

/-- The raw move generator of each piece kind (`Movable::piece_move`
dispatched over `PieceType`; Bishop and Knight are translated from src,
the rest are modelled from the spec). -/
def pieceMove (t : PieceType) (c : Coords) (color : PieceColor)
    (board : GameBoard) (allow : Bool) (history : List HistRec) : List Coords :=
  match t with
  | .Pawn => pawnPieceMove c color board allow history
  | .Knight => knightPieceMove c color board allow history
  | .Bishop => bishopPieceMove c color board allow history
  | .Rook => rookPieceMove c color board allow history
  | .Queen => queenPieceMove c color board allow history
  | .King => kingPieceMove c color board allow history

/-- Modelled from the spec: `protected_positions` - the raw reachable set
with `allow_ally_capture = true`. -/
def protected_positions (t : PieceType) (c : Coords) (color : PieceColor)
    (board : GameBoard) (history : List HistRec) : List Coords :=
  pieceMove t c color board true history

/-- All squares protected by pieces of the given color. -/
def color_protected (board : GameBoard) (color : PieceColor)
    (history : List HistRec) : List Coords :=
  allSquares.flatMap
    (fun c =>
      match bget board c with
      | some (t, col) =>
        if col = color then protected_positions t c col board history else []
      | none => [])

/-- Modelled from the spec: utils.rs `is_getting_checked` - true iff some
opposing piece's protected-positions set contains that color's king
coordinate; the king is located by scanning the grid. -/
def is_getting_checked (board : GameBoard) (color : PieceColor)
    (history : List HistRec) : Bool :=
  (color_protected board color.opposite history).contains
    (get_king_coordinates board color)

/-- Modelled from the spec: utils.rs `impossible_positions_king_checked` -
remove from a candidate list every move that, simulated on a scratch copy
of the grid, leaves the mover's own king in check. -/
def impossible_positions_king_checked (origin : Coords)
    (candidates : List Coords) (board : GameBoard) (color : PieceColor)
    (history : List HistRec) : List Coords :=
  candidates.filter
    (fun dest =>
      let scratch := bset (bset board dest (bget board origin)) origin none
      ¬ is_getting_checked scratch color history)

/-- Modelled from the spec: the castling candidates of king.rs
`King::authorized_positions` - the king and the relevant rook (present on
its home corner) are untouched per the history, all squares between them
are empty, the king is not currently in check, and no square the king
passes through or lands on is protected by the opponent; a candidate is
the rook's square (move_piece receives castling as king-to-rook-square in
non-bot play). -/
def castlingCandidates (c : Coords) (color : PieceColor) (board : GameBoard)
    (history : List HistRec) : List Coords :=
  let home : Int := if color = PieceColor.White then 7 else 0
  if c = Coords.new home 4 ∧
      ¬ did_piece_already_move history (PieceType.King, Coords.new home 4) ∧
      ¬ is_getting_checked board color history then
    let oppProtected := color_protected board color.opposite history
    let kingside :=
      if bget board (Coords.new home 7) == some (PieceType.Rook, color) ∧
          ¬ did_piece_already_move history (PieceType.Rook, Coords.new home 7) ∧
          (bget board (Coords.new home 5)).isNone ∧
          (bget board (Coords.new home 6)).isNone ∧
          ¬ oppProtected.contains (Coords.new home 5) ∧
          ¬ oppProtected.contains (Coords.new home 6) then
        [Coords.new home 7]
      else []
    let queenside :=
      if bget board (Coords.new home 0) == some (PieceType.Rook, color) ∧
          ¬ did_piece_already_move history (PieceType.Rook, Coords.new home 0) ∧
          (bget board (Coords.new home 1)).isNone ∧
          (bget board (Coords.new home 2)).isNone ∧
          (bget board (Coords.new home 3)).isNone ∧
          ¬ oppProtected.contains (Coords.new home 2) ∧
          ¬ oppProtected.contains (Coords.new home 3) then
        [Coords.new home 0]
      else []
    kingside ++ queenside
  else []

/-- `PieceType::authorized_positions` (pieces/mod.rs dispatch; Bishop and
Knight from src, the rest modelled from the spec): the raw move list with
every move that would leave the mover's own king in check removed; for
the king, castling candidates are added under their own conditions.  The
final flag mirrors the source's `is_king_checked` argument, which the
generators ignore. -/
def PieceType.authorized_positions (t : PieceType) (c : Coords)
    (color : PieceColor) (board : GameBoard) (history : List HistRec)
    (_is_king_checked : Bool) : List Coords :=
  match t with
  | .King =>
    impossible_positions_king_checked c
        (kingPieceMove c color board false history) board color history ++
      castlingCandidates c color board history
  | _ =>
    impossible_positions_king_checked c
      (pieceMove t c color board false history) board color history

/-- The game state (board.rs `Board`), restricted to the fields the
embedded operations read or write; the UI-only cursor/selection/flag
fields are untouched by every operation modelled here. -/
structure Board where
  board : GameBoard
  player_turn : PieceColor
  move_history : List HistRec
  consecutive_non_pawn_or_capture : Int
  is_game_against_bot : Bool
deriving DecidableEq, Repr

/-- The standard starting grid of `Board::default`. -/
def defaultGameBoard : GameBoard :=
  [[some (.Rook, .Black), some (.Knight, .Black), some (.Bishop, .Black),
    some (.Queen, .Black), some (.King, .Black), some (.Bishop, .Black),
    some (.Knight, .Black), some (.Rook, .Black)],
   (List.replicate 8 (some (.Pawn, .Black))),
   (List.replicate 8 none), (List.replicate 8 none),
   (List.replicate 8 none), (List.replicate 8 none),
   (List.replicate 8 (some (.Pawn, .White))),
   [some (.Rook, .White), some (.Knight, .White), some (.Bishop, .White),
    some (.Queen, .White), some (.King, .White), some (.Bishop, .White),
    some (.Knight, .White), some (.Rook, .White)]]

/-- `Board::default`: the starting layout, White to move, empty history. -/
def Board.default : Board :=
  { board := defaultGameBoard
    player_turn := .White
    move_history := []
    consecutive_non_pawn_or_capture := 0
    is_game_against_bot := false }

/-- `Board::new`: explicit grid + turn + history, counters reset. -/
def Board.mkNew (board : GameBoard) (player_turn : PieceColor)
    (move_history : List HistRec) : Board :=
  { board := board
    player_turn := player_turn
    move_history := move_history
    consecutive_non_pawn_or_capture := 0
    is_game_against_bot := false }

/-- `Board::get_authorized_positions`. -/
def Board.get_authorized_positions (b : Board) (t : Option PieceType)
    (col : Option PieceColor) (pos : Coords) : List Coords :=
  match t, col with
  | some t, some col =>
    t.authorized_positions pos col b.board b.move_history
      (is_getting_checked b.board b.player_turn b.move_history)
  | _, _ => []

/-- `Board::switch_player_turn`. -/
def Board.switch_player_turn (b : Board) : Board :=
  { b with player_turn := b.player_turn.opposite }

/-- `Board::number_of_authorized_positions`.  The source's loops are
`for i in 0..7 { for j in 0..7 { .. } }`, which in Rust scan only rows
0-6 and columns 0-6 of the 8x8 grid; `List.range 7` reproduces those
bounds exactly. -/
def Board.number_of_authorized_positions (b : Board) : Nat :=
  ((List.range 7).flatMap (fun i => (List.range 7).map (fun j => (i, j)))).foldl
    (fun count ij =>
      match (b.board.getD ij.1 []).getD ij.2 none with
      | some (t, col) =>
        if col = b.player_turn then
          count +
            (b.get_authorized_positions (some t) (some col)
              (Coords.new ij.1 ij.2)).length
        else count
      | none => count)
    0

/-- `Board::is_checkmate` (the query method, not the cached flag). -/
def Board.is_checkmate (b : Board) : Bool :=
  if ¬ is_getting_checked b.board b.player_turn b.move_history then false
  else b.number_of_authorized_positions == 0

/-- `Board::draw_by_repetition`. -/
def Board.draw_by_repetition (b : Board) : Bool :=
  if 9 ≤ b.move_history.length then
    let lastTen := b.move_history.reverse.take 9
    let d : HistRec := (PieceType.Pawn, [])
    ((lastTen.getD 0 d, lastTen.getD 1 d) == (lastTen.getD 4 d, lastTen.getD 5 d)) &&
      (lastTen.getD 4 d == lastTen.getD 8 d) &&
      ((lastTen.getD 2 d, lastTen.getD 3 d) == (lastTen.getD 6 d, lastTen.getD 7 d))
  else false

/-- `Board::is_draw` (the query method, not the cached flag). -/
def Board.is_draw (b : Board) : Bool :=
  b.number_of_authorized_positions == 0 ||
    b.consecutive_non_pawn_or_capture == 50 ||
    b.draw_by_repetition

/-- `Board::did_pawn_move_two_cells`. -/
def Board.did_pawn_move_two_cells (b : Board) : Bool :=
  match b.move_history.getLast? with
  | some (piece_type, s) =>
    let from_y := chtoi s[0]?
    let to_y := chtoi s[2]?
    piece_type == PieceType.Pawn && (to_y - from_y).natAbs == 2
  | none => false

/-- `Board::is_latest_move_en_passant`. -/
def Board.is_latest_move_en_passant (b : Board) (fromc toc : Coords) : Bool :=
  match get_piece_type b.board fromc, get_piece_type b.board toc with
  | some PieceType.Pawn, _ =>
    decide (fromc.row ≠ toc.row ∧ fromc.col ≠ toc.col) &&
      (bget b.board toc).isNone
  | _, _ => false

/-- `Board::is_latest_move_castling`. -/
def Board.is_latest_move_castling (b : Board) (fromc toc : Coords) : Bool :=
  match get_piece_type b.board fromc, get_piece_type b.board toc with
  | some PieceType.King, _ => (fromc.col - toc.col).natAbs > 1
  | _, _ => false

/-- `Board::move_piece`: silently ignores invalid coordinates, updates
the 50-move counter, special-cases en passant and castling, moves the
piece, and appends the history record. -/
def Board.move_piece (b : Board) (fromc toc : Coords) : Board :=
  if ¬ fromc.is_valid || ¬ toc.is_valid then b
  else
    let direction_y : Int := if b.player_turn = PieceColor.White then -1 else 1
    let piece_type_from := get_piece_type b.board fromc
    let piece_type_to := get_piece_type b.board toc
    let consec : Int :=
      match piece_type_from, piece_type_to with
      | some PieceType.Pawn, _ => 0
      | some _, some _ => 0
      | _, _ => b.consecutive_non_pawn_or_capture + 1
    let board1 :=
      if b.is_latest_move_en_passant fromc toc then
        bset b.board (Coords.new (toc.row - direction_y) toc.col) none
      else b.board
    let castling := b.is_latest_move_castling fromc toc
    let stepped :=
      if castling then
        let to_x : Int := toc.col
        let distance : Int := fromc.col - to_x
        let direction_x : Int := if distance > 0 then -1 else 1
        let row_index : Int := fromc.col + direction_x * 2
        -- distance = 0 is unreachable here (castling has |distance| > 1)
        let row_index_rook : Int := if distance < 0 then 5 else 3
        let to_x2 : Int :=
          if b.is_game_against_bot ∧ b.player_turn = PieceColor.Black then
            (if distance < 0 then 7 else 0)
          else to_x
        let board2 := bset board1 (Coords.new toc.row row_index) (bget board1 fromc)
        let board3 :=
          bset board2 (Coords.new toc.row row_index_rook)
            (bget board2 (Coords.new toc.row to_x2))
        let board4 := bset board3 (Coords.new toc.row to_x2) none
        (board4, Coords.new toc.row row_index)
      else
        (bset board1 toc (bget board1 fromc), toc)
    let boardF := bset stepped.1 fromc none
    let position_number := fromc.to_hist ++ stepped.2.to_hist
    let history :=
      match piece_type_from with
      | some t => b.move_history ++ [(t, position_number)]
      | none => b.move_history
    { b with
        board := boardF
        move_history := history
        consecutive_non_pawn_or_capture := consec }

/-- The loop of `Board::history_has`: scan indexes i, i-1, ..., 1 of the
history (index 0 is never examined, matching the source's `while i > 0`)
for a record whose origin fragment (`[0..2]`) or destination fragment
(`[2..4]`) equals the given coordinate code. -/
def history_has_aux (hist : List HistRec) (coordHist : List Char)
    (useTo : Bool) : Nat → Option (PieceType × Nat)
  | 0 => none
  | i + 1 =>
    let r := hist.getD (i + 1) (PieceType.Pawn, [])
    let frag := if useTo then (r.2.drop 2).take 2 else r.2.take 2
    if frag == coordHist then some (r.1, i + 1)
    else history_has_aux hist coordHist useTo i

/-- `Board::history_has`: whether the move history mentions a coordinate,
as a destination (`to = true`) or an origin. -/
def history_has (hist : List HistRec) (coord : Coords) (useTo : Bool) :
    Option (PieceType × Nat) :=
  if hist.isEmpty then none
  else history_has_aux hist coord.to_hist useTo (hist.length - 1)

/-- The refill expression of `Board::takeback` for the cell the taken-back
piece had moved to: a capture victim recovered from the history (its color
inferred as the current player turn), or the default-layout piece if the
cell is an untouched initial square of the current player, or nothing. -/
def takebackRefill (hist : List HistRec) (turn : PieceColor)
    (fromc : Coords) : Piece :=
  let hasTo := history_has hist fromc true
  let hasFrom := history_has hist fromc false
  if (hasTo.isSome ∧ hasFrom.isNone) ∨
      (hasFrom.isSome ∧ hasTo.isSome ∧
        (hasTo.getD (PieceType.Pawn, 0)).2 > (hasFrom.getD (PieceType.Pawn, 0)).2) then
    match hasTo with
    | some (kicked_kind, _) => some (kicked_kind, turn)
    | none => none
  else
    match bget Board.default.board fromc with
    | some piece =>
      if get_piece_color Board.default.board fromc = some turn ∧
          hasFrom.isNone then
        some piece
      else none
    | none => none

/-- The body of `Board::takeback` once a record (piece_type, prev_move)
has been popped: reconstruct the prior state (castling-rook restoration,
en-passant pawn restoration, promotion reversal, capture refill by
history inspection), then switch the player turn. -/
def takebackGo (b : Board) (piece_type : PieceType) (prev_move : List Char) :
    Board :=
    let hist1 := b.move_history.dropLast
    let toc := Coords.from_hist (prev_move.take 2)
    let fromc := Coords.from_hist ((prev_move.drop 2).take 2)
    let board1 :=
      if piece_type = PieceType.King ∧ (fromc.col - toc.col).natAbs > 1 then
        let right_rook := Coords.new fromc.row (fromc.col - 1)
        let left_rook := Coords.new fromc.row (fromc.col + 1)
        match b.player_turn with
        | .Black =>
          if (bget b.board right_rook).any (fun p => p.1 = PieceType.Rook) then
            bset (bset b.board right_rook none) (Coords.new 7 7)
              (some (PieceType.Rook, PieceColor.White))
          else
            bset (bset b.board left_rook none) (Coords.new 7 0)
              (some (PieceType.Rook, PieceColor.White))
        | .White =>
          if (bget b.board right_rook).any (fun p => p.1 = PieceType.Rook) then
            bset (bset b.board right_rook none) (Coords.new 0 7)
              (some (PieceType.Rook, PieceColor.Black))
          else
            bset (bset b.board left_rook none) (Coords.new 0 0)
              (some (PieceType.Rook, PieceColor.Black))
      else if piece_type = PieceType.Pawn ∧ toc.row ≠ fromc.row ∧
          toc.col ≠ fromc.col then
        match hist1.getLast? with
        | some (PieceType.Pawn, h) =>
          let passant_from := Coords.from_hist (h.take 2)
          let passant_to := Coords.from_hist ((h.drop 2).take 2)
          if (passant_to.row - passant_from.row).natAbs > 1 ∧
              (fromc.row - passant_to.row).natAbs = 1 then
            bset b.board passant_to (some (PieceType.Pawn, b.player_turn))
          else b.board
        | _ => b.board
      else b.board
    let board2 :=
      if piece_type = PieceType.Pawn ∧ (fromc.row = 0 ∨ fromc.row = 7) then
        bset board1 toc (some (PieceType.Pawn, b.player_turn.opposite))
      else bset board1 toc (bget board1 fromc)
    let board3 := bset board2 fromc (takebackRefill hist1 b.player_turn fromc)
    { b with
        board := board3
        move_history := hist1
        player_turn := b.player_turn.opposite }

/-- `Board::takeback`: pop the last history record and hand it to the
reconstruction body; with an empty history nothing happens. -/
def Board.takeback (b : Board) : Board :=
  match b.move_history.getLast? with
  | none => b
  | some (piece_type, prev_move) => takebackGo b piece_type prev_move

/-- Modelled from the spec: `PieceType::piece_to_fen_enum` - the standard
FEN letter of a piece (uppercase White, lowercase Black), empty for an
empty cell. -/
def pieceToFenEnum (t : Option PieceType) (c : Option PieceColor) : List Char :=
  match t, c with
  | some .Pawn, some .White => ['P']
  | some .Knight, some .White => ['N']
  | some .Bishop, some .White => ['B']
  | some .Rook, some .White => ['R']
  | some .Queen, some .White => ['Q']
  | some .King, some .White => ['K']
  | some .Pawn, some .Black => ['p']
  | some .Knight, some .Black => ['n']
  | some .Bishop, some .Black => ['b']
  | some .Rook, some .Black => ['r']
  | some .Queen, some .Black => ['q']
  | some .King, some .Black => ['k']
  | _, _ => []

/-- The empty-cell step of `Board::fen_position`'s run-length encoding:
increment a trailing digit, otherwise append '1'. -/
def pushEmptyRun (res : List Char) : List Char :=
  match res.getLast? with
  | some last_char =>
    if isDigitCh last_char then
      res.dropLast ++ [fromDigitOrDflt (charDigit last_char + 1)]
    else res ++ ['1']
  | none => res ++ ['1']

/-- One cell of `Board::fen_position`'s board loop. -/
def fenCell (res : List Char) (t : Option PieceType) (c : Option PieceColor) :
    List Char :=
  match pieceToFenEnum t c with
  | [] => pushEmptyRun res
  | letter => res ++ letter

/-- The board field of `Board::fen_position`: the nested
`for i in 0..8 { for j in 0..8 }` run-length encoder, a '/' after each
row, and the final '/' popped. -/
def fenBoardStr (board : GameBoard) : List Char :=
  ((List.range 8).foldl
    (fun res i =>
      ((List.range 8).foldl
        (fun r j =>
          fenCell r (get_piece_type board (Coords.new i j))
            (get_piece_color board (Coords.new i j)))
        res) ++ ['/'])
    []).dropLast

/-- The castling-availability fragment of `Board::fen_position`: when the
black king is untouched and black is not in check, " k" for an untouched
kingside rook followed by 'q' (with no space of its own) for an untouched
queenside rook; otherwise " -". -/
def fenCastlingFragment (b : Board) : List Char :=
  if ¬ did_piece_already_move b.move_history (PieceType.King, Coords.new 0 4) ∧
      ¬ is_getting_checked b.board PieceColor.Black b.move_history then
    (if ¬ did_piece_already_move b.move_history (PieceType.Rook, Coords.new 0 7)
     then [' ', 'k'] else []) ++
      (if ¬ did_piece_already_move b.move_history (PieceType.Rook, Coords.new 0 0)
       then ['q'] else [])
  else [' ', '-']

/-- The algebraic en-passant square of `Board::fen_position`, from the
first two digits of the latest history record (nothing is pushed when the
record or its digits are missing). -/
def fenEnPassantInner : Option HistRec → List Char
  | some (_, s) =>
    match s[0]?, s[1]? with
    | some c0, some c1 =>
      let from_y := chtoi (some c0) - 1
      let from_x := chtoi (some c1)
      ' ' :: (col_to_letter from_x ++ intToChars (8 - from_y))
    | _, _ => []
  | none => []

/-- The en-passant fragment of `Board::fen_position`: when the latest move
was a pawn double-step, a space and the algebraic square derived from the
record's origin digits; otherwise " -". -/
def fenEnPassantFragment (b : Board) : List Char :=
  if b.did_pawn_move_two_cells then fenEnPassantInner b.move_history.getLast?
  else [' ', '-']

/-- `Board::fen_position`: the board field, the hardcoded " b" side to
move, the castling fragment, the en-passant fragment, the half-move
counter and the full-move number, concatenated in the source's push
order. -/
def Board.fen_position (b : Board) : List Char :=
  fenBoardStr b.board ++ [' ', 'b'] ++ fenCastlingFragment b ++
    fenEnPassantFragment b ++
    (' ' :: intToChars b.consecutive_non_pawn_or_capture) ++
    (' ' :: natToChars (b.move_history.length / 2))

/-- Split a character list at every space, keeping empty fields - the
semantics of Rust's `str::split(' ')`, used to read the whitespace-
delimited fields of a FEN string. -/
def splitSp : List Char → List (List Char)
  | [] => [[]]
  | c :: rest =>
    if c = ' ' then [] :: splitSp rest
    else
      match splitSp rest with
      | f :: fs => (c :: f) :: fs
      | [] => [[c]]

/-- An 8x8-shaped grid: eight rows of eight cells. -/
def boardWF (g : GameBoard) : Prop :=
  g.length = 8 ∧ ∀ r ∈ g, r.length = 8

instance : DecidablePred boardWF := fun g => by
  unfold boardWF
  infer_instance

section ListLemmas

lemma list_set_getD_self {α : Type} (l : List α) (i : Nat) (d : α)
    (h : i < l.length) : l.set i (l.getD i d) = l := by
  induction l generalizing i with
  | nil => simp at h
  | cons x xs ih =>
    cases i with
    | zero => simp [List.getD]
    | succ n =>
      simp only [List.set, List.getD, List.getElem?_cons_succ]
      rw [show (x :: xs).length = xs.length + 1 from rfl] at h
      have := ih n (Nat.lt_of_succ_lt_succ h)
      simp [List.getD] at this
      simp [this]

end ListLemmas

/-- Membership of valid coordinate indexes: both projections to `Nat` are
below 8 and determine the coordinate. -/
lemma coords_valid_toNat {c : Coords} (h : c.is_valid = true) :
    c.row.toNat < 8 ∧ c.col.toNat < 8 ∧
      (c.row.toNat : Int) = c.row ∧ (c.col.toNat : Int) = c.col := by
  unfold Coords.is_valid at h
  simp only [Bool.and_eq_true, decide_eq_true_eq] at h
  refine ⟨?_, ?_, ?_, ?_⟩ <;> omega

/-- Distinct valid coordinates have distinct index pairs. -/
lemma coords_ne_index {c d : Coords} (hc : c.is_valid = true)
    (hd : d.is_valid = true) (h : c ≠ d) :
    c.row.toNat ≠ d.row.toNat ∨ c.col.toNat ≠ d.col.toNat := by
  obtain ⟨_, _, hcr, hcc⟩ := coords_valid_toNat hc
  obtain ⟨_, _, hdr, hdc⟩ := coords_valid_toNat hd
  by_contra hcon
  push_neg at hcon
  apply h
  have h1 : c.row = d.row := by omega
  have h2 : c.col = d.col := by omega
  cases c
  cases d
  simp_all

/-- The row picked out of a well-formed grid at a valid row index has
eight cells. -/
lemma row_len {g : GameBoard} (hwf : boardWF g) {i : Nat} (hi : i < 8) :
    ((g[i]?).getD []).length = 8 := by
  obtain ⟨hlen, hrows⟩ := hwf
  have hrl : i < g.length := by omega
  have hmem : (g[i]?).getD [] ∈ g := by
    rw [List.getElem?_eq_getElem hrl, Option.getD_some]
    exact List.getElem_mem hrl
  exact hrows _ hmem

/-- Reading back a just-written valid cell of a well-formed grid. -/
lemma bget_bset_same {g : GameBoard} {c : Coords} (p : Piece)
    (hwf : boardWF g) (hc : c.is_valid = true) :
    bget (bset g c p) c = p := by
  obtain ⟨hrow, hcol, _, _⟩ := coords_valid_toNat hc
  have hg8 := hwf.1
  have hrl : c.row.toNat < g.length := by omega
  have hrowlen := row_len hwf hrow
  simp only [bget, bset, List.getD_eq_getElem?_getD]
  rw [List.getElem?_set_self hrl, Option.getD_some,
    List.getElem?_set_self (by omega : c.col.toNat < ((g[c.row.toNat]?).getD []).length),
    Option.getD_some]

/-- Reading an untouched valid cell after writing a different one. -/
lemma bget_bset_ne {g : GameBoard} {c d : Coords} (p : Piece)
    (hc : c.is_valid = true) (hd : d.is_valid = true) (h : c ≠ d) :
    bget (bset g c p) d = bget g d := by
  simp only [bget, bset, List.getD_eq_getElem?_getD]
  by_cases hrowEq : c.row.toNat = d.row.toNat
  · rcases coords_ne_index hc hd h with hne | hne
    · exact absurd hrowEq hne
    · by_cases hrl : c.row.toNat < g.length
      · rw [hrowEq, List.getElem?_set_self (hrowEq ▸ hrl), Option.getD_some,
          ← hrowEq, List.getElem?_set_ne hne, hrowEq]
      · rw [List.set_eq_of_length_le (by omega)]
  · rw [List.getElem?_set_ne hrowEq]

/-- Overwriting the same valid cell twice keeps only the second write. -/
lemma bset_bset_same (g : GameBoard) (c : Coords) (p q : Piece) :
    bset (bset g c p) c q = bset g c q := by
  by_cases hrl : c.row.toNat < g.length
  · simp only [bset, List.getD_eq_getElem?_getD]
    rw [List.getElem?_set_self hrl, Option.getD_some, List.set_set, List.set_set]
  · have h1 : bset g c p = g := by
      unfold bset
      exact List.set_eq_of_length_le (by omega)
    rw [h1]

/-- Writes to distinct valid cells commute. -/
lemma bset_bset_comm {g : GameBoard} {c d : Coords} (p q : Piece)
    (hc : c.is_valid = true) (hd : d.is_valid = true) (h : c ≠ d) :
    bset (bset g c p) d q = bset (bset g d q) c p := by
  by_cases hrowEq : c.row.toNat = d.row.toNat
  · rcases coords_ne_index hc hd h with hne | hne
    · exact absurd hrowEq hne
    · by_cases hrl : c.row.toNat < g.length
      · simp only [bset, List.getD_eq_getElem?_getD]
        rw [← hrowEq, List.getElem?_set_self hrl, Option.getD_some,
          List.getElem?_set_self hrl, Option.getD_some,
          List.set_set, List.set_set, List.set_comm _ _ _ hne]
      · have hcg : ∀ r, bset g c r = g := by
          intro r
          unfold bset
          exact List.set_eq_of_length_le (by omega)
        have hdg : ∀ r, bset g d r = g := by
          intro r
          unfold bset
          exact List.set_eq_of_length_le (by omega)
        rw [hcg, hdg, hcg]
  · simp only [bset, List.getD_eq_getElem?_getD]
    rw [List.getElem?_set_ne hrowEq, List.getElem?_set_ne (Ne.symm hrowEq),
      List.set_comm _ _ _ hrowEq]

/-- Writing back the value a valid cell already holds is the identity. -/
lemma bset_bget_self {g : GameBoard} {c : Coords} (hwf : boardWF g)
    (hc : c.is_valid = true) : bset g c (bget g c) = g := by
  obtain ⟨hrow, hcol, _, _⟩ := coords_valid_toNat hc
  have hg8 := hwf.1
  have hrl : c.row.toNat < g.length := by omega
  have hrowlen := row_len hwf hrow
  unfold bset bget
  rw [list_set_getD_self _ _ _
    (by rw [List.getD_eq_getElem?_getD]; omega)]
  exact list_set_getD_self _ _ _ hrl

/-- C4: for every board state and every pair of coordinates where `from`
or `to` has a component outside [0,7], `move_piece` is a complete no-op:
grid, move history, player turn and the no-pawn-move-or-capture counter
are unchanged (the whole state is returned untouched) and no error is
signalled. -/
theorem move_piece_invalid_coords_noop (b : Board) (fromc toc : Coords)
    (h : fromc.is_valid = false ∨ toc.is_valid = false) :
    b.move_piece fromc toc = b := by
  unfold Board.move_piece
  rcases h with h | h <;> simp [h]

/-- Witness for C4 at a concrete input: the undefined position is invalid
and moving from it leaves the default board untouched. -/
theorem move_piece_invalid_coords_noop_witness :
    Coords.dflt.is_valid = false ∧
      Board.default.move_piece Coords.dflt (Coords.new 0 0) = Board.default :=
  ⟨by decide,
    move_piece_invalid_coords_noop Board.default Coords.dflt (Coords.new 0 0)
      (Or.inl (by decide))⟩

/-- C9: for valid coordinates with an EMPTY origin square, `move_piece`
still mutates state: the destination square is overwritten with empty,
the no-pawn-move-or-capture counter is incremented, and no history record
is appended (turn is also untouched, as `move_piece` never switches it). -/
theorem move_piece_empty_origin (b : Board) (fromc toc : Coords)
    (h1 : fromc.is_valid = true) (h2 : toc.is_valid = true)
    (h3 : bget b.board fromc = none) :
    b.move_piece fromc toc =
      { b with
          board := bset (bset b.board toc none) fromc none,
          consecutive_non_pawn_or_capture :=
            b.consecutive_non_pawn_or_capture + 1 } := by
  have hptf : get_piece_type b.board fromc = none := by
    simp [get_piece_type, h3]
  have hep : b.is_latest_move_en_passant fromc toc = false := by
    unfold Board.is_latest_move_en_passant
    rw [hptf]
  have hcast : b.is_latest_move_castling fromc toc = false := by
    unfold Board.is_latest_move_castling
    rw [hptf]
  unfold Board.move_piece
  simp only [h1, h2, hptf, hep, hcast, h3, Bool.not_true, Bool.or_self,
    Bool.false_eq_true, if_false, if_neg, reduceIte]
  simp [h3]

/-- Witness for C9 at a concrete input: moving from the empty square e4
of the default board erases the (already empty) destination square e5,
bumps the counter and appends nothing. -/
theorem move_piece_empty_origin_witness :
    (Coords.new 4 4).is_valid = true ∧ (Coords.new 3 4).is_valid = true ∧
      bget Board.default.board (Coords.new 4 4) = none ∧
      Board.default.move_piece (Coords.new 4 4) (Coords.new 3 4) =
        { Board.default with
            board := bset (bset Board.default.board (Coords.new 3 4) none)
              (Coords.new 4 4) none,
            consecutive_non_pawn_or_capture :=
              Board.default.consecutive_non_pawn_or_capture + 1 } :=
  ⟨by decide, by decide, by decide,
    move_piece_empty_origin Board.default (Coords.new 4 4) (Coords.new 3 4)
      (by decide) (by decide) (by decide)⟩

/-- C7: `move_piece` resets the no-pawn-move-or-capture counter to 0 when
the moved piece is a pawn or the destination is occupied, and increments
it by 1 otherwise; `is_draw` is true when the counter equals 50 and false
at 49 when the other draw conditions (no counted legal move; 8-ply
repetition) are absent. -/
theorem fifty_move_counter :
    (∀ (b : Board) (fromc toc : Coords) (pt : PieceType),
        fromc.is_valid = true → toc.is_valid = true →
        get_piece_type b.board fromc = some pt →
        (b.move_piece fromc toc).consecutive_non_pawn_or_capture =
          (if pt = PieceType.Pawn ∨ (get_piece_type b.board toc).isSome = true
           then 0 else b.consecutive_non_pawn_or_capture + 1)) ∧
    (∀ b : Board, b.consecutive_non_pawn_or_capture = 50 →
        b.is_draw = true) ∧
    (∀ b : Board, b.consecutive_non_pawn_or_capture = 49 →
        b.number_of_authorized_positions ≠ 0 → b.draw_by_repetition = false →
        b.is_draw = false) := by
  refine ⟨?_, ?_, ?_⟩
  · intro b fromc toc pt h1 h2 h3
    unfold Board.move_piece
    simp only [h1, h2, h3, Bool.not_true, Bool.or_self, Bool.false_eq_true,
      if_false, reduceIte]
    rcases hto : get_piece_type b.board toc with _ | p2 <;>
      cases pt <;> simp [hto]
  · intro b h
    unfold Board.is_draw
    rw [h]
    simp
  · intro b h1 h2 h3
    unfold Board.is_draw
    rw [h1, h3]
    simp [h2]

/-- A kings-only grid (White king c7, Black king g7) used as a concrete
input: White always has king moves, so the position is not stalemate. -/
def kingsGrid : GameBoard :=
  [List.replicate 8 none,
   [none, none, some (.King, .White), none, none, none, some (.King, .Black),
    none],
   List.replicate 8 none, List.replicate 8 none, List.replicate 8 none,
   List.replicate 8 none, List.replicate 8 none, List.replicate 8 none]

/-- Witness for C7 at concrete inputs: a pawn move resets the counter; a
kings-only board with counter 50 is a draw; the same board with counter
49, at least one authorized move and no repetition is not. -/
theorem fifty_move_counter_witness :
    ((Board.default.move_piece (Coords.new 6 4) (Coords.new 4 4)).consecutive_non_pawn_or_capture = 0) ∧
      ({ Board.mkNew kingsGrid .White [] with
          consecutive_non_pawn_or_capture := 50 } : Board).is_draw = true ∧
      ({ Board.mkNew kingsGrid .White [] with
          consecutive_non_pawn_or_capture := 49 } : Board).is_draw = false := by
  refine ⟨?_, ?_, ?_⟩
  · have := fifty_move_counter.1 Board.default (Coords.new 6 4) (Coords.new 4 4)
      PieceType.Pawn (by decide) (by decide) (by decide)
    rw [this]
    decide
  · exact fifty_move_counter.2.1 _ rfl
  · exact fifty_move_counter.2.2 _ rfl (by decide) (by decide)

/-- C8: `draw_by_repetition` (and hence `is_draw`) is true whenever the
last 9 history records form an exact alternating 2-move cycle
a b c d a b c d a (window records 1-2 equal 5-6, 3-4 equal 7-8, and 5
equals 9), and false whenever the history has fewer than 9 records. -/
theorem repetition_draw :
    (∀ (pre : List HistRec) (a b c d : HistRec) (bd : Board),
        bd.move_history = pre ++ [a, b, c, d, a, b, c, d, a] →
        bd.draw_by_repetition = true ∧ bd.is_draw = true) ∧
    (∀ bd : Board, bd.move_history.length < 9 →
        bd.draw_by_repetition = false) := by
  constructor
  · intro pre a b c d bd h
    have hrep : bd.draw_by_repetition = true := by
      unfold Board.draw_by_repetition
      rw [h]
      rw [if_pos (by simp)]
      have hrev : (pre ++ [a, b, c, d, a, b, c, d, a]).reverse.take 9 =
          [a, d, c, b, a, d, c, b, a] := by
        rw [List.reverse_append]
        have h9 : ([a, b, c, d, a, b, c, d, a] : List HistRec).reverse =
            [a, d, c, b, a, d, c, b, a] := by simp
        rw [h9]
        exact List.take_left' (by simp)
      rw [hrev]
      simp
    refine ⟨hrep, ?_⟩
    unfold Board.is_draw
    rw [hrep]
    simp
  · intro bd h
    unfold Board.draw_by_repetition
    rw [if_neg (by omega)]

/-- The 9-record alternating king-shuffle history of the repo's own
`consecutive_position_draw` test. -/
def repHistA : HistRec := (.King, ['0', '2', '0', '1'])

def repHistB : HistRec := (.King, ['0', '6', '0', '5'])

def repHistC : HistRec := (.King, ['0', '1', '0', '2'])

def repHistD : HistRec := (.King, ['0', '5', '0', '6'])

/-- A kings-only board carrying the repeated 9-record history. -/
def repBoard : Board :=
  Board.mkNew
    [[none, none, some (.King, .White), none, none, none, some (.King, .Black),
      none],
     List.replicate 8 none, List.replicate 8 none, List.replicate 8 none,
     List.replicate 8 none, List.replicate 8 none, List.replicate 8 none,
     List.replicate 8 none]
    .White
    [repHistA, repHistB, repHistC, repHistD, repHistA, repHistB, repHistC,
     repHistD, repHistA]

/-- Witness for C8 at concrete inputs: the 9-record cycle history is a
repetition draw, and the empty default history is not. -/
theorem repetition_draw_witness :
    (repBoard.draw_by_repetition = true ∧ repBoard.is_draw = true) ∧
      Board.default.move_history.length < 9 ∧
      Board.default.draw_by_repetition = false :=
  ⟨repetition_draw.1 [] repHistA repHistB repHistC repHistD repBoard rfl,
    by decide, repetition_draw.2 Board.default (by decide)⟩

/-- The failing input for C1: White to move, White king on its back rank
(row 7, col 4), Black rook on (0, 4) giving check along the file.  The
king has escape squares, but it stands outside the 7x7 region scanned by
`number_of_authorized_positions`. -/
def backRankBoard : Board :=
  Board.mkNew
    [[none, none, none, none, some (.Rook, .Black), none, none, none],
     List.replicate 8 none, List.replicate 8 none, List.replicate 8 none,
     List.replicate 8 none, List.replicate 8 none, List.replicate 8 none,
     [none, none, none, none, some (.King, .White), none, none, none]]
    .White []

/-- C1 (code bug, evaluated at the failing input): the side to move is in
check and its king - a piece of that side standing on row 7 of the 8x8
grid - has four authorized moves, yet `is_checkmate` returns true,
because `number_of_authorized_positions` loops `for i in 0..7` and never
counts pieces on row 7 or column 7. -/
theorem checkmate_scan_bug :
    backRankBoard.is_checkmate = true ∧
      is_getting_checked backRankBoard.board backRankBoard.player_turn
        backRankBoard.move_history = true ∧
      (PieceType.authorized_positions .King (Coords.new 7 4) .White
          backRankBoard.board backRankBoard.move_history true).length = 4 := by
  decide

/-- The counterexample input for C2: the repo's own `is_checkmate_true`
position (White king (0,0), Black rook (2,1), Black queen (3,0), White to
move) - the side to move is in check with zero authorized moves. -/
def matedBoard : Board :=
  Board.mkNew
    [[some (.King, .White), none, none, none, none, none, none, none],
     List.replicate 8 none,
     [none, some (.Rook, .Black), none, none, none, none, none, none],
     [some (.Queen, .Black), none, none, none, none, none, none, none],
     List.replicate 8 none, List.replicate 8 none, List.replicate 8 none,
     List.replicate 8 none]
    .White []

/-- C2 counterexample: a position where the side to move is in check with
zero authorized moves (a checkmate - `is_checkmate` agrees) is
nevertheless reported as a draw by `is_draw`, refuting the claim's "in
particular" clause. -/
theorem draw_in_check_counterexample :
    matedBoard.is_draw = true ∧
      is_getting_checked matedBoard.board matedBoard.player_turn
        matedBoard.move_history = true ∧
      matedBoard.number_of_authorized_positions = 0 ∧
      matedBoard.is_checkmate = true := by
  decide

/-- C2 amended: `is_draw` is exactly the disjunction "zero counted
authorized moves OR counter = 50 OR 8-ply repetition", with no exclusion
for being in check - in particular a side in check with zero counted
moves is reported as a draw. -/
theorem is_draw_characterization :
    (∀ b : Board, b.is_draw = true ↔
        (b.number_of_authorized_positions = 0 ∨
          b.consecutive_non_pawn_or_capture = 50 ∨
          b.draw_by_repetition = true)) ∧
    (∀ b : Board,
        is_getting_checked b.board b.player_turn b.move_history = true →
        b.number_of_authorized_positions = 0 → b.is_draw = true) := by
  constructor
  · intro b
    unfold Board.is_draw
    simp [Bool.or_eq_true, beq_iff_eq, or_assoc]
  · intro b _ h0
    unfold Board.is_draw
    simp [h0]

/-- Witness for C2's amended claim at a concrete input: the checkmated
board is in check with zero counted moves and `is_draw` reports true. -/
theorem is_draw_characterization_witness :
    is_getting_checked matedBoard.board matedBoard.player_turn
        matedBoard.move_history = true ∧
      matedBoard.number_of_authorized_positions = 0 ∧
      matedBoard.is_draw = true :=
  ⟨by decide, by decide,
    is_draw_characterization.2 matedBoard (by decide) (by decide)⟩

/-- The counterexample input for C3: a White bishop on (0,0) with the
Black king on the adjacent diagonal square (1,1) and nothing beyond. -/
def seeThroughBoard : GameBoard :=
  [[some (.Bishop, .White), none, none, none, none, none, none, none],
   [none, some (.King, .Black), none, none, none, none, none, none],
   List.replicate 8 none, List.replicate 8 none, List.replicate 8 none,
   List.replicate 8 none, List.replicate 8 none, List.replicate 8 none]

/-- C3 counterexample: with allow_ally_capture the bishop's ray keeps
going past the enemy king - both (2,2) and (3,3), two and three squares
beyond the king on (1,1), are in the returned set, refuting "at most one
further square on that ray". -/
theorem bishop_past_king_counterexample :
    bget seeThroughBoard (Coords.new 1 1) =
        some (PieceType.King, PieceColor.Black) ∧
      Coords.new 2 2 ∈
        bishopPieceMove (Coords.new 0 0) .White seeThroughBoard true [] ∧
      Coords.new 3 3 ∈
        bishopPieceMove (Coords.new 0 0) .White seeThroughBoard true [] := by
  decide

/-- The amended C3 ray, written from the spec's corrected words: scan the
diagonal until the board edge or a blocking piece, where the opposing
king does not block - its square is included and the scan continues
through it; an ally square is included and stops the scan; any other
enemy square is included and stops the scan. -/
def seeThroughWalk (board : GameBoard) (color : PieceColor) (base : Coords)
    (dr dc : Int) : Nat → Int → List Coords
  | 0, _ => []
  | n + 1, i =>
    let nc := Coords.new (base.row + dr * i) (base.col + dc * i)
    if is_valid nc then
      match bget board nc with
      | none => nc :: seeThroughWalk board color base dr dc n (i + 1)
      | some (t, col) =>
        if col = color then [nc]
        else if t = PieceType.King then
          nc :: seeThroughWalk board color base dr dc n (i + 1)
        else [nc]
    else []

/-- The amended C3 claim's move set: the four diagonal see-through rays. -/
def bishopSeeThroughSpec (c : Coords) (color : PieceColor)
    (board : GameBoard) : List Coords :=
  seeThroughWalk board color c (-1) (-1) 7 1 ++
    seeThroughWalk board color c 1 1 7 1 ++
    seeThroughWalk board color c 1 (-1) 7 1 ++
    seeThroughWalk board color c (-1) 1 7 1

/-- The two colors: a color different from `color` is its opposite. -/
lemma ne_color_eq_opposite {col color : PieceColor} (h : ¬ col = color) :
    col = color.opposite := by
  cases col <;> cases color <;> simp_all [PieceColor.opposite]

/-- With `allow` set, the source's ray scan is the see-through walk. -/
lemma rayScan_true_eq_seeThroughWalk (board : GameBoard) (color : PieceColor)
    (base : Coords) (dr dc : Int) :
    ∀ (n : Nat) (i : Int),
      rayScan board color true base dr dc n i =
        seeThroughWalk board color base dr dc n i := by
  intro n
  induction n with
  | zero => intro i; rfl
  | succ m ih =>
    intro i
    unfold rayScan seeThroughWalk
    by_cases hv :
        is_valid (Coords.new (base.row + dr * i) (base.col + dc * i)) = true
    · rcases hb : bget board (Coords.new (base.row + dr * i) (base.col + dc * i))
        with _ | ⟨t, col⟩
      · have hcolor :
            get_piece_color board
              (Coords.new (base.row + dr * i) (base.col + dc * i)) = none := by
          simp [get_piece_color, hb]
        simp [hv, hcolor, hb, ih]
      · have hcolor :
            get_piece_color board
              (Coords.new (base.row + dr * i) (base.col + dc * i)) = some col := by
          simp [get_piece_color, hb]
        by_cases hcol : col = color
        · have hal :
              is_cell_color_ally board
                (Coords.new (base.row + dr * i) (base.col + dc * i)) color = true := by
            simp [is_cell_color_ally, hcolor, hcol]
          simp [hv, hcolor, hal, hb, hcol]
        · have hal :
              is_cell_color_ally board
                (Coords.new (base.row + dr * i) (base.col + dc * i)) color = false := by
            simp [is_cell_color_ally, hcolor, hcol]
          have hop : col = color.opposite := ne_color_eq_opposite hcol
          by_cases ht : t = PieceType.King
          · subst ht
            have hk :
                is_piece_opposite_king (some (PieceType.King, col)) color = true := by
              simp [is_piece_opposite_king, hop]
            simp [hv, hcolor, hal, hb, hcol, hk, ih]
          · have hk :
                is_piece_opposite_king (some (t, col)) color = false := by
              simp only [is_piece_opposite_king]
              rw [beq_eq_false_iff_ne]
              intro hcontra
              apply ht
              have := congrArg
                (fun o => (o.getD (PieceType.Pawn, PieceColor.White)).1) hcontra
              simpa using this
            simp [hv, hcolor, hal, hb, hcol, ht, hk]
    · simp [hv]

/-- Every square produced by the see-through walk is valid. -/
lemma seeThroughWalk_valid (board : GameBoard) (color : PieceColor)
    (base : Coords) (dr dc : Int) :
    ∀ (n : Nat) (i : Int) (x : Coords),
      x ∈ seeThroughWalk board color base dr dc n i → is_valid x = true := by
  intro n
  induction n with
  | zero => intro i x hx; simp [seeThroughWalk] at hx
  | succ m ih =>
    intro i x hx
    unfold seeThroughWalk at hx
    by_cases hv :
        is_valid (Coords.new (base.row + dr * i) (base.col + dc * i)) = true
    · rcases hb : bget board (Coords.new (base.row + dr * i) (base.col + dc * i))
        with _ | ⟨t, col⟩
      · simp only [hb, hv, if_true, List.mem_cons] at hx
        rcases hx with rfl | hx
        · exact hv
        · exact ih _ _ hx
      · simp only [hb, hv, if_true] at hx
        by_cases hcol : col = color
        · simp only [if_pos hcol, List.mem_singleton] at hx
          exact hx ▸ hv
        · by_cases ht : t = PieceType.King
          · simp only [if_neg hcol, if_pos ht, List.mem_cons] at hx
            rcases hx with rfl | hx
            · exact hv
            · exact ih _ _ hx
          · simp only [if_neg hcol, if_neg ht, List.mem_singleton] at hx
            exact hx ▸ hv
    · simp only [hv, Bool.false_eq_true, if_false] at hx
      simp at hx

/-- C3 amended: with allow_ally_capture, `Bishop::piece_move` equals the
see-through specification - each diagonal ray runs until the board edge
or the next blocking piece, and the opposing king's square does not
block: the scan continues through it (so arbitrarily many squares past
the king may be included, not at most one). -/
theorem bishop_allow_ally_sees_through (c : Coords) (color : PieceColor)
    (board : GameBoard) (history : List HistRec) :
    bishopPieceMove c color board true history =
      bishopSeeThroughSpec c color board := by
  unfold bishopPieceMove bishopSeeThroughSpec cleaned_positions
  rw [rayScan_true_eq_seeThroughWalk, rayScan_true_eq_seeThroughWalk,
    rayScan_true_eq_seeThroughWalk, rayScan_true_eq_seeThroughWalk]
  rw [List.filter_eq_self.mpr]
  intro a ha
  simp only [List.mem_append] at ha
  rcases ha with ((ha | ha) | ha) | ha <;>
    exact seeThroughWalk_valid board color c _ _ _ _ _ ha

/-- Splitting at spaces peels off a space-free prefix as one field. -/
lemma splitSp_append {xs : List Char} (ys : List Char) (h : ' ' ∉ xs) :
    splitSp (xs ++ ' ' :: ys) = xs :: splitSp ys := by
  induction xs with
  | nil => simp [splitSp]
  | cons x xt ih =>
    have hx : ¬ x = ' ' := fun hc => h (hc ▸ List.mem_cons_self x xt)
    have ht : ' ' ∉ xt := fun hc => h (List.mem_cons_of_mem x hc)
    show splitSp (x :: (xt ++ ' ' :: ys)) = (x :: xt) :: splitSp ys
    rw [show splitSp (x :: (xt ++ ' ' :: ys)) =
        (if x = ' ' then [] :: splitSp (xt ++ ' ' :: ys)
         else
           match splitSp (xt ++ ' ' :: ys) with
           | f :: fs => (x :: f) :: fs
           | [] => [[x]]) from rfl,
      if_neg hx, ih ht]

/-- Field 1 (0-indexed) of a string shaped "A w rest" with space-free A
and w is w. -/
lemma splitSp_field1 (A w rest : List Char) (hA : ' ' ∉ A) (hw : ' ' ∉ w) :
    (splitSp (A ++ ' ' :: (w ++ ' ' :: rest))).getD 1 [] = w := by
  rw [splitSp_append _ hA, splitSp_append _ hw]
  rfl

/-- FEN piece letters never contain a space. -/
lemma pieceToFenEnum_no_space (t : Option PieceType) (c : Option PieceColor) :
    ' ' ∉ pieceToFenEnum t c := by
  rcases t with _ | t <;> rcases c with _ | c
  · decide
  · cases c <;> decide
  · cases t <;> decide
  · cases t <;> cases c <;> decide

/-- The run-length digit characters are never a space. -/
lemma fromDigitOrDflt_ne_space (n : Nat) : fromDigitOrDflt n ≠ ' ' := by
  unfold fromDigitOrDflt
  by_cases h : n < 10
  · rw [if_pos h]
    interval_cases n <;> decide
  · rw [if_neg h]
    decide

/-- The run-length step preserves space-freeness. -/
lemma pushEmptyRun_no_space {res : List Char} (h : ' ' ∉ res) :
    ' ' ∉ pushEmptyRun res := by
  unfold pushEmptyRun
  split
  · split_ifs with hd
    · intro hmem
      rcases List.mem_append.mp hmem with hmem | hmem
      · exact h (List.dropLast_subset res hmem)
      · rw [List.mem_singleton] at hmem
        exact fromDigitOrDflt_ne_space _ hmem.symm
    · intro hmem
      rcases List.mem_append.mp hmem with hmem | hmem
      · exact h hmem
      · simp at hmem
  · intro hmem
    rcases List.mem_append.mp hmem with hmem | hmem
    · exact h hmem
    · simp at hmem

/-- One board-loop cell preserves space-freeness. -/
lemma fenCell_no_space {res : List Char} (h : ' ' ∉ res)
    (t : Option PieceType) (c : Option PieceColor) :
    ' ' ∉ fenCell res t c := by
  intro hmem
  unfold fenCell at hmem
  rcases he : pieceToFenEnum t c with _ | ⟨l, ls⟩
  · rw [he] at hmem
    exact pushEmptyRun_no_space h hmem
  · rw [he] at hmem
    have hmem' : ' ' ∈ res ++ (l :: ls) := hmem
    rcases List.mem_append.mp hmem' with hm | hm
    · exact h hm
    · have := pieceToFenEnum_no_space t c
      rw [he] at this
      exact this hm

/-- A fold whose step preserves space-freeness preserves it. -/
lemma foldl_no_space {β : Type} (f : List Char → β → List Char)
    (hf : ∀ (res : List Char) (x : β), ' ' ∉ res → ' ' ∉ f res x) :
    ∀ (l : List β) (res : List Char), ' ' ∉ res → ' ' ∉ l.foldl f res := by
  intro l
  induction l with
  | nil => intro res h; exact h
  | cons x xs ih => intro res h; exact ih _ (hf _ _ h)

/-- The FEN board field never contains a space. -/
lemma fenBoardStr_no_space (board : GameBoard) : ' ' ∉ fenBoardStr board := by
  unfold fenBoardStr
  intro hmem
  have hfull : ' ' ∉ (List.range 8).foldl
      (fun res i =>
        ((List.range 8).foldl
          (fun r j =>
            fenCell r (get_piece_type board (Coords.new i j))
              (get_piece_color board (Coords.new i j)))
          res) ++ ['/'])
      [] := by
    apply foldl_no_space
    · intro res i hres
      intro hm
      rcases List.mem_append.mp hm with hm | hm
      · exact foldl_no_space
          (fun r j =>
            fenCell r (get_piece_type board (Coords.new i j))
              (get_piece_color board (Coords.new i j)))
          (fun r j hr => fenCell_no_space hr _ _) (List.range 8) res hres hm
      · simp at hm
    · simp
  exact hfull (List.dropLast_subset _ hmem)

/-- The en-passant fragment is empty or begins with a space. -/
lemma fenEnPassant_shape (b : Board) :
    fenEnPassantFragment b = [] ∨
      ∃ t, fenEnPassantFragment b = ' ' :: t := by
  unfold fenEnPassantFragment
  by_cases h : b.did_pawn_move_two_cells = true
  · rw [if_pos h]
    rcases b.move_history.getLast? with _ | ⟨pt, s⟩
    · exact Or.inl rfl
    · simp only [fenEnPassantInner]
      rcases h0 : s[0]? with _ | c0 <;> rcases h1 : s[1]? with _ | c1
      · exact Or.inl rfl
      · exact Or.inl rfl
      · exact Or.inl rfl
      · exact Or.inr ⟨_, rfl⟩
  · rw [if_neg h]
    exact Or.inr ⟨['-'], rfl⟩

/-- The one state shape in which the castling fragment glues a 'q' onto
the side-to-move field: black king untouched, black not in check,
kingside rook already moved, queenside rook untouched. -/
def blackQueensideOnly (b : Board) : Bool :=
  !did_piece_already_move b.move_history (PieceType.King, Coords.new 0 4) &&
    !is_getting_checked b.board PieceColor.Black b.move_history &&
    did_piece_already_move b.move_history (PieceType.Rook, Coords.new 0 7) &&
    !did_piece_already_move b.move_history (PieceType.Rook, Coords.new 0 0)

/-- The counterexample input for C6: kings on their home files, untouched
black king, no check, the kingside rook recorded as moved and the
queenside rook untouched. -/
def qOnlyBoard : Board :=
  Board.mkNew
    [[none, none, none, none, some (.King, .Black), none, none, none],
     List.replicate 8 none, List.replicate 8 none, List.replicate 8 none,
     List.replicate 8 none, List.replicate 8 none, List.replicate 8 none,
     [none, none, none, none, some (.King, .White), none, none, none]]
    .White [(.Rook, ['0', '7', '4', '7'])]

set_option maxRecDepth 100000 in
/-- C6 counterexample: on the concrete board whose only castling right is
black queenside, the second whitespace field of the FEN string is "bq",
not the letter "b": the 'q' is pushed with no space of its own. -/
theorem fen_side_field_counterexample :
    (splitSp qOnlyBoard.fen_position).getD 1 [] ≠ ['b'] := by
  decide

/-- The no-castling-rights shape: when the emitted castling fragment is
" -", the second whitespace field is the plain "b". -/
lemma fen_side_field_dash (b : Board)
    (hfrag : fenCastlingFragment b = [' ', '-'])
    (hbqo : blackQueensideOnly b = false) :
    (splitSp b.fen_position).getD 1 [] =
      (if blackQueensideOnly b then ['b', 'q'] else ['b']) := by
  rw [hbqo]
  unfold Board.fen_position
  rw [hfrag]
  have hshape : fenBoardStr b.board ++ [' ', 'b'] ++ [' ', '-'] ++
      fenEnPassantFragment b ++
      (' ' :: intToChars b.consecutive_non_pawn_or_capture) ++
      (' ' :: natToChars (b.move_history.length / 2)) =
      fenBoardStr b.board ++ ' ' :: (['b'] ++ ' ' ::
        ('-' :: (fenEnPassantFragment b ++
          (' ' :: intToChars b.consecutive_non_pawn_or_capture) ++
          (' ' :: natToChars (b.move_history.length / 2))))) := by
    simp
  rw [hshape,
    splitSp_field1 _ _ _ (fenBoardStr_no_space b.board) (by decide)]
  simp

/-- C6 amended: the second whitespace field of fen_position() is "b" in
every state except the queenside-only-castling state (black king
untouched, black not in check, kingside rook moved, queenside rook not),
where it is "bq"; in particular it always begins with 'b' and never
depends on player_turn. -/
theorem fen_side_field (b : Board) :
    (splitSp b.fen_position).getD 1 [] =
      (if blackQueensideOnly b then ['b', 'q'] else ['b']) := by
  have hA := fenBoardStr_no_space b.board
  by_cases hdk : did_piece_already_move b.move_history
      (PieceType.King, Coords.new 0 4) = true
  · -- black king already moved: fragment " -"
    apply fen_side_field_dash
    · unfold fenCastlingFragment
      rw [if_neg (by simp [hdk])]
    · unfold blackQueensideOnly
      simp [hdk]
  by_cases hch :
    is_getting_checked b.board PieceColor.Black b.move_history = true
  · -- black in check: fragment " -"
    apply fen_side_field_dash
    · unfold fenCastlingFragment
      rw [if_neg (by simp [hch])]
    · unfold blackQueensideOnly
      simp [hch]
  · -- castling block reached: king untouched, black not in check
    by_cases hr7 : did_piece_already_move b.move_history
        (PieceType.Rook, Coords.new 0 7) = true
    · by_cases hr0 : did_piece_already_move b.move_history
          (PieceType.Rook, Coords.new 0 0) = true
      · -- no castling right at all: empty fragment, field stays "b"
        have hfrag : fenCastlingFragment b = [] := by
          unfold fenCastlingFragment
          rw [if_pos ⟨by simp [hdk], by simp [hch]⟩, if_neg (by simp [hr7]),
            if_neg (by simp [hr0])]
          rfl
        have hbqo : blackQueensideOnly b = false := by
          unfold blackQueensideOnly
          simp [hr0]
        rw [hbqo]
        unfold Board.fen_position
        rw [hfrag]
        rcases fenEnPassant_shape b with hE | ⟨tE, hE⟩ <;> rw [hE]
        · have hshape : fenBoardStr b.board ++ [' ', 'b'] ++ [] ++ [] ++
              (' ' :: intToChars b.consecutive_non_pawn_or_capture) ++
              (' ' :: natToChars (b.move_history.length / 2)) =
              fenBoardStr b.board ++ ' ' :: (['b'] ++ ' ' ::
                (intToChars b.consecutive_non_pawn_or_capture ++
                  (' ' :: natToChars (b.move_history.length / 2)))) := by
            simp
          rw [hshape, splitSp_field1 _ _ _ hA (by decide)]
          simp
        · have hshape : fenBoardStr b.board ++ [' ', 'b'] ++ [] ++
              (' ' :: tE) ++
              (' ' :: intToChars b.consecutive_non_pawn_or_capture) ++
              (' ' :: natToChars (b.move_history.length / 2)) =
              fenBoardStr b.board ++ ' ' :: (['b'] ++ ' ' ::
                (tE ++ (' ' :: intToChars b.consecutive_non_pawn_or_capture) ++
                  (' ' :: natToChars (b.move_history.length / 2)))) := by
            simp
          rw [hshape, splitSp_field1 _ _ _ hA (by decide)]
          simp
      · -- queenside only: the 'q' glues to the "b" field
        have hfrag : fenCastlingFragment b = ['q'] := by
          unfold fenCastlingFragment
          rw [if_pos ⟨by simp [hdk], by simp [hch]⟩, if_neg (by simp [hr7]),
            if_pos (by simp [hr0])]
          rfl
        have hbqo : blackQueensideOnly b = true := by
          unfold blackQueensideOnly
          simp [hdk, hch, hr7, hr0]
        rw [hbqo]
        unfold Board.fen_position
        rw [hfrag]
        rcases fenEnPassant_shape b with hE | ⟨tE, hE⟩ <;> rw [hE]
        · have hshape : fenBoardStr b.board ++ [' ', 'b'] ++ ['q'] ++ [] ++
              (' ' :: intToChars b.consecutive_non_pawn_or_capture) ++
              (' ' :: natToChars (b.move_history.length / 2)) =
              fenBoardStr b.board ++ ' ' :: (['b', 'q'] ++ ' ' ::
                (intToChars b.consecutive_non_pawn_or_capture ++
                  (' ' :: natToChars (b.move_history.length / 2)))) := by
            simp
          rw [hshape, splitSp_field1 _ _ _ hA (by decide)]
          simp
        · have hshape : fenBoardStr b.board ++ [' ', 'b'] ++ ['q'] ++
              (' ' :: tE) ++
              (' ' :: intToChars b.consecutive_non_pawn_or_capture) ++
              (' ' :: natToChars (b.move_history.length / 2)) =
              fenBoardStr b.board ++ ' ' :: (['b', 'q'] ++ ' ' ::
                (tE ++ (' ' :: intToChars b.consecutive_non_pawn_or_capture) ++
                  (' ' :: natToChars (b.move_history.length / 2)))) := by
            simp
          rw [hshape, splitSp_field1 _ _ _ hA (by decide)]
          simp
    · -- kingside right present: fragment starts with " k", field stays "b"
      have hfrag : fenCastlingFragment b = [' ', 'k'] ++
          (if ¬ did_piece_already_move b.move_history
              (PieceType.Rook, Coords.new 0 0) then ['q'] else []) := by
        unfold fenCastlingFragment
        rw [if_pos ⟨by simp [hdk], by simp [hch]⟩, if_pos (by simp [hr7])]
      have hbqo : blackQueensideOnly b = false := by
        unfold blackQueensideOnly
        simp [hr7]
      rw [hbqo]
      unfold Board.fen_position
      rw [hfrag]
      have hshape : fenBoardStr b.board ++ [' ', 'b'] ++ ([' ', 'k'] ++
          (if ¬ did_piece_already_move b.move_history
              (PieceType.Rook, Coords.new 0 0) then ['q'] else [])) ++
          fenEnPassantFragment b ++
          (' ' :: intToChars b.consecutive_non_pawn_or_capture) ++
          (' ' :: natToChars (b.move_history.length / 2)) =
          fenBoardStr b.board ++ ' ' :: (['b'] ++ ' ' ::
            ('k' :: ((if ¬ did_piece_already_move b.move_history
                (PieceType.Rook, Coords.new 0 0) then ['q'] else []) ++
              (fenEnPassantFragment b ++
                (' ' :: intToChars b.consecutive_non_pawn_or_capture) ++
                (' ' :: natToChars (b.move_history.length / 2)))))) := by
        simp
      rw [hshape, splitSp_field1 _ _ _ hA (by decide)]
      simp

/-- The counterexample input for C10: untouched black king, no check,
both black rooks recorded as moved (so the castling fragment is empty),
and a final pawn double-step record making the en-passant field "c3" -
which then sits in the third whitespace-field position. -/
def shiftedBoard : Board :=
  Board.mkNew
    [[none, none, none, none, some (.King, .Black), none, none, none],
     List.replicate 8 none, List.replicate 8 none, List.replicate 8 none,
     List.replicate 8 none, List.replicate 8 none, List.replicate 8 none,
     [none, none, none, none, some (.King, .White), none, none, none]]
    .White
    [(.Rook, ['0', '7', '1', '7']), (.Rook, ['0', '0', '1', '0']),
     (.Pawn, ['6', '2', '4', '2'])]

set_option maxRecDepth 100000 in
/-- C10 counterexample: when black retains no castling rights with an
untouched, unchecked king, fen_position pushes an empty castling
fragment, and the third whitespace field of the output is the en-passant
square "c3" - neither "-" nor a subset of the characters k and q. -/
theorem fen_castling_field_counterexample :
    (splitSp shiftedBoard.fen_position).getD 2 [] = ['c', '3'] ∧
      ¬ ((splitSp shiftedBoard.fen_position).getD 2 [] = ['-'] ∨
        ∀ ch ∈ (splitSp shiftedBoard.fen_position).getD 2 [],
          ch = 'k' ∨ ch = 'q') := by
  decide

/-- C10 amended: the castling fragment emitted between the side-to-move
and en-passant parts of fen_position() never contains the White markers
'K' or 'Q'; it is one of " -", "", " k", "q", " kq"; and it is " -"
exactly when the black king has a prior history move or black is in
check.  As a whitespace-delimited field this can shift: the fragment may
be empty (no rights but king untouched and unchecked) or glued to the
side-to-move field (queenside-only), so the third field of the output is
not always the castling availability. -/
theorem fen_castling_fragment_charset (b : Board) :
    (fenCastlingFragment b = [' ', '-'] ∨ fenCastlingFragment b = [] ∨
      fenCastlingFragment b = [' ', 'k'] ∨ fenCastlingFragment b = ['q'] ∨
      fenCastlingFragment b = [' ', 'k', 'q']) ∧
    ('K' ∉ fenCastlingFragment b ∧ 'Q' ∉ fenCastlingFragment b) ∧
    (fenCastlingFragment b = [' ', '-'] ↔
      (did_piece_already_move b.move_history
          (PieceType.King, Coords.new 0 4) = true ∨
        is_getting_checked b.board PieceColor.Black b.move_history = true)) := by
  by_cases hok :
      (¬ did_piece_already_move b.move_history (PieceType.King, Coords.new 0 4) ∧
        ¬ is_getting_checked b.board PieceColor.Black b.move_history)
  · have hrhs : ¬ (did_piece_already_move b.move_history
        (PieceType.King, Coords.new 0 4) = true ∨
          is_getting_checked b.board PieceColor.Black b.move_history = true) := by
      rcases hok with ⟨h1, h2⟩
      intro hc
      rcases hc with hc | hc
      · exact h1 hc
      · exact h2 hc
    by_cases hr7 : did_piece_already_move b.move_history
        (PieceType.Rook, Coords.new 0 7) = true
    all_goals by_cases hr0 :
      (did_piece_already_move b.move_history (PieceType.Rook, Coords.new 0 0) = true)
    all_goals
      have hfrag :
          fenCastlingFragment b =
            (if ¬ did_piece_already_move b.move_history
                (PieceType.Rook, Coords.new 0 7) then [' ', 'k'] else []) ++
              (if ¬ did_piece_already_move b.move_history
                  (PieceType.Rook, Coords.new 0 0) then ['q'] else []) := by
        unfold fenCastlingFragment
        rw [if_pos hok]
    · rw [if_neg (by simp [hr7]), if_neg (by simp [hr0])] at hfrag
      rw [hfrag]
      exact ⟨Or.inr (Or.inl rfl), ⟨by decide, by decide⟩,
        ⟨fun hc => by simp at hc, fun hc => absurd hc hrhs⟩⟩
    · rw [if_neg (by simp [hr7]), if_pos (by simp [hr0])] at hfrag
      rw [hfrag]
      exact ⟨Or.inr (Or.inr (Or.inr (Or.inl rfl))), ⟨by decide, by decide⟩,
        ⟨fun hc => by simp at hc, fun hc => absurd hc hrhs⟩⟩
    · rw [if_pos (by simp [hr7]), if_neg (by simp [hr0])] at hfrag
      rw [hfrag]
      exact ⟨Or.inr (Or.inr (Or.inl rfl)), ⟨by decide, by decide⟩,
        ⟨fun hc => by simp at hc, fun hc => absurd hc hrhs⟩⟩
    · rw [if_pos (by simp [hr7]), if_pos (by simp [hr0])] at hfrag
      rw [hfrag]
      exact ⟨Or.inr (Or.inr (Or.inr (Or.inr rfl))), ⟨by decide, by decide⟩,
        ⟨fun hc => by simp at hc, fun hc => absurd hc hrhs⟩⟩
  · have hfrag : fenCastlingFragment b = [' ', '-'] := by
      unfold fenCastlingFragment
      rw [if_neg hok]
    have hrhs : did_piece_already_move b.move_history
        (PieceType.King, Coords.new 0 4) = true ∨
          is_getting_checked b.board PieceColor.Black b.move_history = true := by
      by_contra hc
      push_neg at hc
      exact hok ⟨hc.1, hc.2⟩
    rw [hfrag]
    exact ⟨Or.inl rfl, ⟨by decide, by decide⟩, ⟨fun _ => hrhs, fun _ => rfl⟩⟩

/-- A valid coordinate's history code is its two digit characters. -/
lemma to_hist_valid {c : Coords} (hc : c.is_valid = true) :
    c.to_hist = [digitChar c.row.toNat, digitChar c.col.toNat] := by
  obtain ⟨hr, hcn, hri, hci⟩ := coords_valid_toNat hc
  have hrow0 : ¬ c.row < 0 := by omega
  have hcol0 : ¬ c.col < 0 := by omega
  unfold Coords.to_hist intToChars natToChars
  rw [if_neg hrow0, if_neg hcol0]
  simp only [natToCharsAux]
  rw [if_pos (by omega : c.row.toNat < 10), if_pos (by omega : c.col.toNat < 10)]
  rfl

/-- Parsing a digit character gives back its value. -/
lemma charToInt_digitChar (n : Nat) (h : n < 10) :
    charToInt (digitChar n) = n := by
  interval_cases n <;> decide

/-- Parsing the concatenated from/to history code of a simple move
recovers both coordinates. -/
lemma from_hist_concat {c d : Coords} (hc : c.is_valid = true)
    (hd : d.is_valid = true) :
    Coords.from_hist ((c.to_hist ++ d.to_hist).take 2) = c ∧
      Coords.from_hist (((c.to_hist ++ d.to_hist).drop 2).take 2) = d := by
  obtain ⟨hr, hcn, hri, hci⟩ := coords_valid_toNat hc
  obtain ⟨hr', hcn', hri', hci'⟩ := coords_valid_toNat hd
  rw [to_hist_valid hc, to_hist_valid hd]
  constructor
  · show Coords.from_hist [digitChar c.row.toNat, digitChar c.col.toNat] = c
    unfold Coords.from_hist
    simp only [List.getD_eq_getElem?_getD, List.getElem?_cons_zero,
      List.getElem?_cons_succ, Option.getD_some]
    rw [charToInt_digitChar _ (by omega), charToInt_digitChar _ (by omega)]
    unfold Coords.new
    cases c
    simp_all
  · show Coords.from_hist [digitChar d.row.toNat, digitChar d.col.toNat] = d
    unfold Coords.from_hist
    simp only [List.getD_eq_getElem?_getD, List.getElem?_cons_zero,
      List.getElem?_cons_succ, Option.getD_some]
    rw [charToInt_digitChar _ (by omega), charToInt_digitChar _ (by omega)]
    unfold Coords.new
    cases d
    simp_all

/-- Writing one valid cell keeps the grid well-formed. -/
lemma boardWF_bset {g : GameBoard} (hwf : boardWF g) {c : Coords}
    (hc : c.is_valid = true) (p : Piece) : boardWF (bset g c p) := by
  obtain ⟨hrow, hcol, _, _⟩ := coords_valid_toNat hc
  obtain ⟨hlen, hrows⟩ := hwf
  constructor
  · simp [bset, hlen]
  · intro r hr
    unfold bset at hr
    rcases List.mem_or_eq_of_mem_set hr with hr | hr
    · exact hrows _ hr
    · subst hr
      rw [List.length_set, List.getD_eq_getElem?_getD]
      exact row_len ⟨hlen, hrows⟩ hrow

/-- `move_piece` never changes whose turn it is. -/
lemma move_piece_turn (b : Board) (fromc toc : Coords) :
    (b.move_piece fromc toc).player_turn = b.player_turn := by
  unfold Board.move_piece
  split
  · rfl
  · rfl

/-- On a simple move (piece at the origin, empty destination, not en
passant, not castling), `move_piece` writes the piece to the destination,
clears the origin, and appends the from/to record. -/
lemma move_piece_simple (b : Board) (fromc toc : Coords) (pt : PieceType)
    (h1 : fromc.is_valid = true) (h2 : toc.is_valid = true)
    (h3 : bget b.board fromc = some (pt, b.player_turn))
    (h5 : ¬ (pt = PieceType.King ∧ (fromc.col - toc.col).natAbs > 1))
    (h6 : ¬ (pt = PieceType.Pawn ∧ fromc.row ≠ toc.row ∧ fromc.col ≠ toc.col)) :
    (b.move_piece fromc toc).board =
        bset (bset b.board toc (some (pt, b.player_turn))) fromc none ∧
      (b.move_piece fromc toc).move_history =
        b.move_history ++ [(pt, fromc.to_hist ++ toc.to_hist)] := by
  have hptf : get_piece_type b.board fromc = some pt := by
    simp [get_piece_type, h3]
  have hep : b.is_latest_move_en_passant fromc toc = false := by
    unfold Board.is_latest_move_en_passant
    rw [hptf]
    cases pt
    case Pawn =>
      have hdec : decide (fromc.row ≠ toc.row ∧ fromc.col ≠ toc.col) = false :=
        decide_eq_false (fun hcon => h6 ⟨rfl, hcon⟩)
      simp [hdec]
    all_goals rfl
  have hcast : b.is_latest_move_castling fromc toc = false := by
    unfold Board.is_latest_move_castling
    rw [hptf]
    cases pt
    case King =>
      simp only [decide_eq_false (fun hcon => h5 ⟨rfl, hcon⟩)]
    all_goals rfl
  unfold Board.move_piece
  simp only [h1, h2, hptf, hep, hcast, h3, Bool.not_true, Bool.or_self,
    Bool.false_eq_true, if_false, reduceIte]
  exact ⟨rfl, rfl⟩

/-- The counterexample input for C5: a lone White rook on its home corner
(7,0), empty history, White to move.  Moving it one square up to (6,0) -
a plain non-capturing move - and taking back places a phantom White pawn
on (6,0): the refill step sees an untouched initial-layout square of the
mover's color and "restores" the default pawn. -/
def loneRookBoard : Board :=
  Board.mkNew
    [List.replicate 8 none, List.replicate 8 none, List.replicate 8 none,
     List.replicate 8 none, List.replicate 8 none, List.replicate 8 none,
     List.replicate 8 none,
     [some (.Rook, .White), none, none, none, none, none, none, none]]
    .White []

/-- C5 counterexample: move_piece of a simple (valid, own piece, empty
destination, non-castling, non-en-passant, non-promotion) move followed
by takeback does NOT restore the grid - the destination square ends up
holding a phantom pawn. -/
theorem move_takeback_counterexample :
    bget loneRookBoard.board (Coords.new 7 0) =
        some (PieceType.Rook, PieceColor.White) ∧
      bget loneRookBoard.board (Coords.new 6 0) = none ∧
      ((loneRookBoard.move_piece (Coords.new 7 0)
          (Coords.new 6 0)).takeback).board ≠ loneRookBoard.board ∧
      bget ((loneRookBoard.move_piece (Coords.new 7 0)
          (Coords.new 6 0)).takeback).board (Coords.new 6 0) =
        some (PieceType.Pawn, PieceColor.White) := by
  decide

/-- C5 amended: move_piece followed by takeback restores the grid for a
simple move whenever the takeback refill for the destination square
computes empty (no unmatched history record into the destination and the
destination is not an untouched default-layout square of the mover's
color) - the condition the counterexample shows is necessary. -/
theorem move_takeback_roundtrip (b : Board) (fromc toc : Coords)
    (pt : PieceType) (hwf : boardWF b.board)
    (h1 : fromc.is_valid = true) (h2 : toc.is_valid = true)
    (h3 : bget b.board fromc = some (pt, b.player_turn))
    (h4 : bget b.board toc = none)
    (h5 : ¬ (pt = PieceType.King ∧ (fromc.col - toc.col).natAbs > 1))
    (h6 : ¬ (pt = PieceType.Pawn ∧ fromc.row ≠ toc.row ∧ fromc.col ≠ toc.col))
    (h7 : ¬ (pt = PieceType.Pawn ∧ (toc.row = 0 ∨ toc.row = 7)))
    (h8 : takebackRefill b.move_history b.player_turn toc = none) :
    ((b.move_piece fromc toc).takeback).board = b.board := by
  have hneq : fromc ≠ toc := by
    intro h
    rw [h, h4] at h3
    exact Option.noConfusion h3
  obtain ⟨hb', hh'⟩ := move_piece_simple b fromc toc pt h1 h2 h3 h5 h6
  have ht' := move_piece_turn b fromc toc
  have hlast : (b.move_piece fromc toc).move_history.getLast? =
      some (pt, fromc.to_hist ++ toc.to_hist) := by
    rw [hh']
    exact List.getLast?_concat _
  have htb : (b.move_piece fromc toc).takeback =
      takebackGo (b.move_piece fromc toc) pt (fromc.to_hist ++ toc.to_hist) := by
    unfold Board.takeback
    rw [hlast]
  have hdrop : (b.move_piece fromc toc).move_history.dropLast =
      b.move_history := by
    rw [hh']
    exact List.dropLast_concat
  obtain ⟨hp1, hp2⟩ := from_hist_concat h1 h2
  rw [htb]
  unfold takebackGo
  rw [hp1, hp2]
  simp only []
  rw [if_neg (show ¬ (pt = PieceType.King ∧
      (toc.col - fromc.col).natAbs > 1) from fun hcon =>
        h5 ⟨hcon.1, by omega⟩)]
  rw [if_neg (show ¬ (pt = PieceType.Pawn ∧ fromc.row ≠ toc.row ∧
      fromc.col ≠ toc.col) from h6)]
  rw [if_neg (show ¬ (pt = PieceType.Pawn ∧ (toc.row = 0 ∨ toc.row = 7))
    from h7)]
  rw [hdrop, ht', hb', h8]
  have hwf1 : boardWF (bset b.board toc (some (pt, b.player_turn))) :=
    boardWF_bset hwf h2 _
  have hbb : bget (bset (bset b.board toc (some (pt, b.player_turn)))
      fromc none) toc = some (pt, b.player_turn) := by
    rw [bget_bset_ne _ h1 h2 hneq, bget_bset_same _ hwf h2]
  rw [hbb]
  rw [bset_bset_same]
  rw [bset_bset_comm _ _ h2 h1 (Ne.symm hneq)]
  rw [show bset b.board fromc (some (pt, b.player_turn)) = b.board from
    h3 ▸ bset_bget_self hwf h1]
  rw [bset_bset_same]
  rw [show bset b.board toc none = b.board from h4 ▸ bset_bget_self hwf h2]

/-- Witness for C5's amended claim at a concrete input: the double pawn
step e2-e4 on the default board satisfies every hypothesis (in particular
the refill computes empty) and the grid round-trips exactly - the repo's
own `takeback_basic` test. -/
theorem move_takeback_roundtrip_witness :
    boardWF Board.default.board ∧
      bget Board.default.board (Coords.new 6 4) =
        some (PieceType.Pawn, PieceColor.White) ∧
      bget Board.default.board (Coords.new 4 4) = none ∧
      takebackRefill Board.default.move_history Board.default.player_turn
        (Coords.new 4 4) = none ∧
      ((Board.default.move_piece (Coords.new 6 4)
          (Coords.new 4 4)).takeback).board = Board.default.board :=
  ⟨by decide, by decide, by decide, by decide,
    move_takeback_roundtrip Board.default (Coords.new 6 4) (Coords.new 4 4)
      PieceType.Pawn (by decide) (by decide) (by decide) (by decide)
      (by decide) (by decide) (by decide) (by decide) (by decide)⟩

end ChessTui
